import Mathlib

/-!
Verification development for the hipBone numerical core: the CG linear
solver (libs/core/linearSolverCG.cpp) and the matrix-free local operator
dispatch (src/localOperator.cpp).

Device-resident vectors are embedded as functions from natural-number
indices to rationals; floating-point arithmetic is embedded as exact
rational arithmetic.  External collaborators (the dense vector algebra
axpy / norm2 / innerProd, the device kernels written in OKL, and the
single-scalar MPI all-reduce) are not part of the given sources; they are
modelled from the spec where noted and specialized to a single process,
where the all-reduce of a scalar is the identity.
-/

namespace HipBone

/-- A device-resident vector: entry at each natural index.  The C++ code
uses fixed-size occa buffers accessed only at in-range indices. -/
abbrev Vec := ℕ → ℚ

/-- Modelled from the spec: the Dense Vector Algebra collaborator's
axpy(n, a, X, b, Y), which overwrites Y with a*X + b*Y on the first n
entries and touches nothing else. -/
def axpy (n : ℕ) (a : ℚ) (X : Vec) (b : ℚ) (Y : Vec) : Vec :=
  fun i => if i < n then a * X i + b * Y i else Y i

/-- Modelled from the spec: the Dense Vector Algebra collaborator's inner
product of the first n entries (global reduction specialized to a single
process). -/
def innerProd (n : ℕ) (X Y : Vec) : ℚ :=
  ∑ i in Finset.range n, X i * Y i

/-- The square of the Dense Vector Algebra collaborator's 2-norm of the
first n entries.  cg::Solve only ever uses norm2 squared
(rdotr = norm2 * norm2), which is exactly this sum of squares. -/
def norm2sq (n : ℕ) (X : Vec) : ℚ :=
  innerProd n X X

/-- The mymax macro used by cg::Solve for the stopping threshold. -/
def mymax (a b : ℚ) : ℚ :=
  if a > b then a else b

/-- constexpr int CG_BLOCKSIZE = 1024 (linearSolverCG.cpp line 31). -/
def CG_BLOCKSIZE : ℕ := 1024

/-- The block count computed at the top of cg::UpdateCG:
Nblocks = (N+CG_BLOCKSIZE-1)/CG_BLOCKSIZE, then limited to CG_BLOCKSIZE. -/
def Nblocks (N : ℕ) : ℕ :=
  let nb := (N + CG_BLOCKSIZE - 1) / CG_BLOCKSIZE
  if nb > CG_BLOCKSIZE then CG_BLOCKSIZE else nb

/-- Modelled from the spec: the updateCG_r_atomic device kernel
(okl/linearSolverUpdateCG.okl, not among the given sources).  Per the
spec it updates r <- r - alpha*Ap element-wise over the first N entries
and accumulates the sum of squares of the updated r into the (zeroed)
accumulator; in exact arithmetic the block decomposition of the atomic
reduction does not affect the value, so the block count is numerically
irrelevant here. -/
def updateCG_r_atomic (N : ℕ) (_Nblocks : ℕ) (Ap : Vec) (alpha : ℚ)
    (r : Vec) : Vec × ℚ :=
  let r2 : Vec := fun i => if i < N then r i - alpha * Ap i else r i
  (r2, norm2sq N r2)

/-- The cg solver object: problem size N, halo size Nhalo, and the
solver-owned scratch vectors o_p and o_Ap (members of class cg). -/
structure cg where
  N : ℕ
  Nhalo : ℕ
  o_p : Vec
  o_Ap : Vec

/-- The cg constructor (linearSolverCG.cpp lines 33-48): o_p and o_Ap are
device allocations of N+Nhalo entries initialized from a calloc'd (hence
all-zero) host buffer. -/
def cg.construct (N Nhalo : ℕ) : cg :=
  { N := N, Nhalo := Nhalo, o_p := fun _ => 0, o_Ap := fun _ => 0 }

/-- cg::UpdateCG (linearSolverCG.cpp lines 133-159): zero the accumulator,
run the fused residual-update/reduction kernel, copy the accumulator back,
update x <- alpha*p + x, and all-reduce the accumulator (identity on a
single process).  Returns (new rdotr, new x, new r). -/
def cg.UpdateCG (solver : cg) (alpha : ℚ) (x r : Vec) : ℚ × Vec × Vec :=
  let nb := Nblocks solver.N
  let res := updateCG_r_atomic solver.N nb solver.o_Ap alpha r
  let x2 := axpy solver.N alpha solver.o_p 1 x
  let rdotr1 := res.2
  (rdotr1, x2, res.1)

/-- The per-iteration state of cg::Solve: the caller's x and r, the
solver object (whose o_p and o_Ap members evolve), and the three
residual-norm scalars of the loop body. -/
structure CGState where
  solver : cg
  x : Vec
  r : Vec
  rdotr : ℚ
  rdotr1 : ℚ
  rdotr2 : ℚ

/-- One body of the iteration loop of cg::Solve (lines 100-120), at loop
counter iter: shift the residual-norm history, compute beta (zero on the
first iteration), p <- r + beta*p, Ap = A p, pAp = innerProd(p, Ap),
alpha = rdotr1/pAp, then the fused update. -/
def cgIter (A : Vec → Vec) (iter : ℕ) (s : CGState) : CGState :=
  let N := s.solver.N
  let rdotr2 := s.rdotr1
  let rdotr1 := s.rdotr
  let beta : ℚ := if iter = 0 then 0 else rdotr1 / rdotr2
  let p := axpy N 1 s.r beta s.solver.o_p
  let Ap := A p
  let solver2 : cg := { s.solver with o_p := p, o_Ap := Ap }
  let pAp := innerProd N p Ap
  let alpha := rdotr1 / pAp
  let upd := solver2.UpdateCG alpha s.x s.r
  { solver := solver2, x := upd.2.1, r := upd.2.2,
    rdotr := upd.1, rdotr1 := rdotr1, rdotr2 := rdotr2 }

/-- The iteration loop of cg::Solve: for(iter=0; iter<MAXIT; ++iter) with
the top-of-loop break when rdotr <= TOL; fuel is the number of loop
admissions left (MAXIT - iter).  Returns the C++ return value iter
together with the final state. -/
def cgLoop (A : Vec → Vec) (TOL : ℚ) : ℕ → ℕ → CGState → ℕ × CGState
  | 0, iter, s => (iter, s)
  | Nat.succ fuel, iter, s =>
    if s.rdotr ≤ TOL then (iter, s)
    else cgLoop A TOL fuel (iter + 1) (cgIter A iter s)

/-- The pre-loop part of cg::Solve (lines 80-89): Ap = A x into the o_Ap
member, r <- r - Ap over the first N entries, and the initial
rdotr = norm2(r)^2. -/
def cg.SolveInit (solver : cg) (A : Vec → Vec) (x r : Vec) : CGState :=
  let Ap := A x
  let r2 := axpy solver.N (-1) Ap 1 r
  let rdotr := norm2sq solver.N r2
  { solver := { solver with o_Ap := Ap }, x := x, r := r2,
    rdotr := rdotr, rdotr1 := 0, rdotr2 := 0 }

/-- The stopping threshold of cg::Solve (line 89):
TOL = mymax(tol*tol*rdotr, tol*tol) with rdotr the initial residual
norm squared. -/
def cg.SolveTOL (solver : cg) (A : Vec → Vec) (x r : Vec) (tol : ℚ) : ℚ :=
  mymax (tol * tol * (cg.SolveInit solver A x r).rdotr) (tol * tol)

/-- cg::Solve (linearSolverCG.cpp lines 67-131), specialized to a single
process and with the verbose printing dropped: returns the loop counter
iter at exit together with the final state (the C++ code mutates o_x, o_r
and the solver members in place). -/
def cg.Solve (solver : cg) (A : Vec → Vec) (x r : Vec) (tol : ℚ)
    (MAXIT : ℕ) : ℕ × CGState :=
  cgLoop A (cg.SolveTOL solver A x r tol) MAXIT 0 (cg.SolveInit solver A x r)

/-- The state after k executions of the loop body of cg::Solve starting
at loop counter iter (no tolerance break; used to speak about the CG
recurrence itself, iteration by iteration). -/
def cgSteps (A : Vec → Vec) : ℕ → ℕ → CGState → CGState
  | _iter, 0, s => s
  | iter, Nat.succ k, s => cgSteps A (iter + 1) k (cgIter A iter s)

/-! ## The local operator (src/localOperator.cpp)

occa::memory handles are embedded as natural-number addresses into a heap
of element-indexed buffers, so that the distinction between the output
argument o_Aq and the member buffer o_AqL written by the kernels is
visible.  The per-element operator computed by the device kernel
(okl sources, not among the given files) is abstracted as a function
elemOp from the input vector and the element id to the element's result;
the geometric factors o_ggeo, the differentiation matrix o_D and the
scalar lambda that the source passes to every kernel call are folded into
elemOp, since they are identical across the three dispatches. -/

/-- The heap of device buffers: address to element-indexed contents. -/
def Heap := ℕ → Vec

/-- Overwrite the buffer at one address. -/
def Heap.write (h : Heap) (a : ℕ) (v : Vec) : Heap :=
  fun b => if b = a then v else h b

/-- One record of an issued kernel launch: the element count and the
element-index list passed to the kernel. -/
structure Launch where
  count : ℕ
  elems : List ℕ

/-- Modelled from the spec: the localOperatorKernel device kernel applies
the per-element operator to the input vector q at each of the first
count elements of the element list, writing the result into the output
buffer at those elements and leaving every other element untouched. -/
def localOperatorKernel (count : ℕ) (elemList : List ℕ)
    (elemOp : Vec → ℕ → ℚ) (q : Vec) (Aq : Vec) : Vec :=
  fun e => if e ∈ elemList.take count then elemOp q e else Aq e

/-- The element partition data the mesh exposes to the local operator. -/
structure mesh_t where
  Nelements : ℕ
  NlocalGatherElements : ℕ
  NglobalGatherElements : ℕ
  localGatherElementList : List ℕ
  globalGatherElementList : List ℕ

/-- The hipBone_t fields the local operator touches: the mesh and the
address of the member buffer o_AqL that the three kernel calls write. -/
structure hipBone_t where
  mesh : mesh_t
  aAqL : ℕ

/-- hipBone_t::LocalOperator (src/localOperator.cpp lines 29-53): three
guarded kernel dispatches - the first half of the local-only elements,
then all the global (halo-dependent) elements, then the remaining
(NlocalGatherElements+1)/2 local-only elements offset by
NlocalGatherElements/2 into the local list.  Every kernel call passes the
input argument o_qL and writes the member buffer o_AqL; the output
argument o_Aq is not used by the body.  Returns the updated heap and the
list of issued launches in order. -/
def hipBone_t.LocalOperator (hb : hipBone_t) (elemOp : Vec → ℕ → ℚ)
    (aQL aAq : ℕ) (h0 : Heap) : Heap × List Launch :=
  let m := hb.mesh
  let h1 := if m.NlocalGatherElements / 2 ≠ 0 then
      Heap.write h0 hb.aAqL
        (localOperatorKernel (m.NlocalGatherElements / 2)
          m.localGatherElementList elemOp (h0 aQL) (h0 hb.aAqL))
    else h0
  let L1 : List Launch := if m.NlocalGatherElements / 2 ≠ 0 then
      [⟨m.NlocalGatherElements / 2, m.localGatherElementList⟩] else []
  let h2 := if m.NglobalGatherElements ≠ 0 then
      Heap.write h1 hb.aAqL
        (localOperatorKernel m.NglobalGatherElements
          m.globalGatherElementList elemOp (h1 aQL) (h1 hb.aAqL))
    else h1
  let L2 : List Launch := if m.NglobalGatherElements ≠ 0 then
      [⟨m.NglobalGatherElements, m.globalGatherElementList⟩] else []
  let h3 := if (m.NlocalGatherElements + 1) / 2 ≠ 0 then
      Heap.write h2 hb.aAqL
        (localOperatorKernel ((m.NlocalGatherElements + 1) / 2)
          (m.localGatherElementList.drop (m.NlocalGatherElements / 2))
          elemOp (h2 aQL) (h2 hb.aAqL))
    else h2
  let L3 : List Launch := if (m.NlocalGatherElements + 1) / 2 ≠ 0 then
      [⟨(m.NlocalGatherElements + 1) / 2,
        m.localGatherElementList.drop (m.NlocalGatherElements / 2)⟩] else []
  (h3, L1 ++ L2 ++ L3)

/-- The elements covered by the three guarded dispatches of
hipBone_t::LocalOperator, in dispatch order (each guarded exactly as in
the source; a skipped dispatch contributes nothing). -/
def coveredElements (m : mesh_t) : List ℕ :=
  (if m.NlocalGatherElements / 2 ≠ 0 then
    m.localGatherElementList.take (m.NlocalGatherElements / 2) else []) ++
  (if m.NglobalGatherElements ≠ 0 then
    m.globalGatherElementList.take m.NglobalGatherElements else []) ++
  (if (m.NlocalGatherElements + 1) / 2 ≠ 0 then
    (m.localGatherElementList.drop (m.NlocalGatherElements / 2)).take
      ((m.NlocalGatherElements + 1) / 2) else [])

/-! ## Host-side trace of cg::UpdateCG

For the temporal claim about the synchronization in cg::UpdateCG, the
host instruction sequence of lines 143-156 is embedded explicitly
together with an abstract schedule of device-side completion times.
Per the spec, device operations issued to the same execution queue
execute (and hence complete) in issue order, and waitFor(tag) blocks the
host until every device operation issued before the stream tag was
recorded has completed. -/

/-- The device-side operations cg::UpdateCG enqueues, in source order. -/
inductive DevOp
  | setZero
  | fusedUpdate
  | copyAccum
  | axpySolution
deriving DecidableEq

/-- One host-thread instruction of cg::UpdateCG. -/
inductive HostStep
  | enqueue (op : DevOp)
  | tagStream
  | waitTag
  | allReduce
deriving DecidableEq

/-- Whether a host instruction enqueues device work. -/
def HostStep.isEnqueue : HostStep → Bool
  | HostStep.enqueue _ => true
  | _ => false

/-- The host instruction sequence of cg::UpdateCG (lines 143-156):
zero the accumulator, launch the fused kernel, start the asynchronous
accumulator copy, record the stream tag, launch the solution-update
axpy, wait on the tag, then the MPI all-reduce. -/
def updateCGHostProgram : List HostStep :=
  [HostStep.enqueue DevOp.setZero,
   HostStep.enqueue DevOp.fusedUpdate,
   HostStep.enqueue DevOp.copyAccum,
   HostStep.tagStream,
   HostStep.enqueue DevOp.axpySolution,
   HostStep.waitTag,
   HostStep.allReduce]

/-- How many device operations are enqueued by the first k host
instructions of a program. -/
def enqueuedBefore (P : List HostStep) (k : ℕ) : ℕ :=
  ((P.take k).filter HostStep.isEnqueue).length

/-- The device operations covered by the stream tag: those enqueued
before the tagStream instruction. -/
def tagCutoff (P : List HostStep) : ℕ :=
  enqueuedBefore P (P.findIdx fun s => decide (s = HostStep.tagStream))

/-- A schedule: the time each host instruction executes and the time each
enqueued device operation (numbered in issue order) completes. -/
structure Schedule where
  hostTime : ℕ → ℕ
  devComplete : ℕ → ℕ

/-- Validity of a schedule for a host program with one stream tag: the
host thread is sequential; device operations on the one queue complete in
issue order; a device operation completes no earlier than its enqueue
executes; and the waitTag instruction does not execute before every
device operation covered by the tag has completed. -/
def ValidSchedule (P : List HostStep) (S : Schedule) : Prop :=
  (∀ k2 < P.length, ∀ k < k2, S.hostTime k < S.hostTime k2) ∧
  (∀ j2 < enqueuedBefore P P.length, ∀ j < j2,
    S.devComplete j < S.devComplete j2) ∧
  (∀ k < P.length, (P.getD k HostStep.tagStream).isEnqueue = true →
    S.hostTime k ≤ S.devComplete (enqueuedBefore P k)) ∧
  (∀ k < P.length, P.getD k HostStep.tagStream = HostStep.waitTag →
    ∀ j < tagCutoff P, S.devComplete j ≤ S.hostTime k)

instance (P : List HostStep) (S : Schedule) :
    Decidable (ValidSchedule P S) := by
  unfold ValidSchedule
  infer_instance

/-! ## Basic lemmas about the vector algebra -/

lemma axpy_window {n : ℕ} (a : ℚ) (X : Vec) (b : ℚ) (Y : Vec) {i : ℕ}
    (hi : i < n) : axpy n a X b Y i = a * X i + b * Y i := by
  simp [axpy, hi]

lemma axpy_outside {n : ℕ} (a : ℚ) (X : Vec) (b : ℚ) (Y : Vec) {i : ℕ}
    (hi : n ≤ i) : axpy n a X b Y i = Y i := by
  simp [axpy, Nat.not_lt.mpr hi]

lemma innerProd_congr {n : ℕ} {X X2 Y Y2 : Vec}
    (hX : ∀ i < n, X i = X2 i) (hY : ∀ i < n, Y i = Y2 i) :
    innerProd n X Y = innerProd n X2 Y2 := by
  unfold innerProd
  refine Finset.sum_congr rfl fun i hi => ?_
  rw [hX i (Finset.mem_range.mp hi), hY i (Finset.mem_range.mp hi)]

lemma innerProd_comm (n : ℕ) (X Y : Vec) :
    innerProd n X Y = innerProd n Y X := by
  unfold innerProd
  exact Finset.sum_congr rfl fun i _ => mul_comm _ _

lemma innerProd_lin_left (n : ℕ) (a c : ℚ) (u v w : Vec) :
    innerProd n (fun j => a * u j + c * v j) w
      = a * innerProd n u w + c * innerProd n v w := by
  unfold innerProd
  rw [Finset.mul_sum, Finset.mul_sum, ← Finset.sum_add_distrib]
  exact Finset.sum_congr rfl fun i _ => by ring

lemma innerProd_lin_right (n : ℕ) (a c : ℚ) (w u v : Vec) :
    innerProd n w (fun j => a * u j + c * v j)
      = a * innerProd n w u + c * innerProd n w v := by
  rw [innerProd_comm, innerProd_lin_left, innerProd_comm n u w,
    innerProd_comm n v w]

lemma innerProd_zero_left {n : ℕ} {X : Vec} (Y : Vec)
    (hX : ∀ i < n, X i = 0) : innerProd n X Y = 0 := by
  unfold innerProd
  refine Finset.sum_eq_zero fun i hi => ?_
  rw [hX i (Finset.mem_range.mp hi), zero_mul]

lemma norm2sq_congr {n : ℕ} {X Y : Vec} (h : ∀ i < n, X i = Y i) :
    norm2sq n X = norm2sq n Y :=
  innerProd_congr h h

lemma norm2sq_nonneg (n : ℕ) (X : Vec) : 0 ≤ norm2sq n X := by
  unfold norm2sq innerProd
  exact Finset.sum_nonneg fun i _ => mul_self_nonneg _

lemma mymax_right_le (a b : ℚ) : b ≤ mymax a b := by
  unfold mymax
  split
  · exact le_of_lt (by assumption)
  · exact le_refl b

/-!
## C10: zero-initialized scratch vectors
-/

/-- C10: at solver construction the scratch vectors o_p and o_Ap are
allocated with every entry initialized to zero (the constructor copies a
calloc'd all-zero host buffer of N+Nhalo entries into each device
allocation), so the first iteration's update p <- r + beta*p with
beta = 0 reads only well-defined values. -/
theorem cg_construct_zero_scratch (N Nhalo : ℕ) :
    (∀ i, (cg.construct N Nhalo).o_p i = 0) ∧
    (∀ i, (cg.construct N Nhalo).o_Ap i = 0) ∧
    (cg.construct N Nhalo).N = N ∧ (cg.construct N Nhalo).Nhalo = Nhalo :=
  ⟨fun _ => rfl, fun _ => rfl, rfl, rfl⟩

/-!
## C8: the block-count cap of the fused kernel
-/

lemma ceil_div_1024 (N : ℕ) :
    Nat.ceil ((N : ℚ) / 1024) = (N + 1023) / 1024 := by
  rcases Nat.eq_zero_or_pos N with h0 | h0
  · subst h0; simp
  · have hq : (N + 1023) / 1024 ≠ 0 := by omega
    rw [Nat.ceil_eq_iff hq]
    have hdm := Nat.div_add_mod (N + 1023) 1024
    have hmlt : (N + 1023) % 1024 < 1024 := Nat.mod_lt _ (by norm_num)
    constructor
    · rw [lt_div_iff₀ (by norm_num : (0:ℚ) < 1024)]
      have : 1024 * ((N + 1023) / 1024 - 1) < N := by omega
      calc ((((N + 1023) / 1024 - 1 : ℕ)) : ℚ) * 1024
          = ((1024 * ((N + 1023) / 1024 - 1) : ℕ) : ℚ) := by push_cast; ring
        _ < (N : ℚ) := by exact_mod_cast this
    · rw [div_le_iff₀ (by norm_num : (0:ℚ) < 1024)]
      have : N ≤ 1024 * ((N + 1023) / 1024) := by omega
      calc (N : ℚ) ≤ ((1024 * ((N + 1023) / 1024) : ℕ) : ℚ) := by
            exact_mod_cast this
        _ = (((N + 1023) / 1024 : ℕ) : ℚ) * 1024 := by push_cast; ring

/-- C8: the number of parallel blocks computed by cg::UpdateCG equals
min(ceil(N / 1024), 1024): it is the ceiling of N/CG_BLOCKSIZE capped at
the fixed maximum CG_BLOCKSIZE = 1024, independent of the problem size. -/
theorem updateCG_block_count (N : ℕ) :
    Nblocks N = min (Nat.ceil ((N : ℚ) / 1024)) 1024 ∧
    Nblocks N ≤ 1024 ∧ CG_BLOCKSIZE = 1024 := by
  refine ⟨?_, ?_, rfl⟩
  · rw [ceil_div_1024]
    unfold Nblocks CG_BLOCKSIZE
    simp only []
    split
    · omega
    · omega
  · unfold Nblocks CG_BLOCKSIZE
    simp only []
    split
    · omega
    · omega

/-!
## C3: immediate convergence detection
-/

/-- C3: cg::Solve computes the initial rdotr as the square of the 2-norm
of the updated residual (the sum of squares over the first N entries),
derives TOL = mymax(tol^2 * rdotr, tol^2), and exits the loop without
counting the current trial whenever rdotr <= TOL at the top of the loop;
in particular when the initial residual already satisfies rdotr <= TOL,
Solve performs zero iterations, returns 0, and leaves the state exactly
as the pre-loop setup produced it. -/
theorem solve_zero_iterations_on_converged_input (solver : cg)
    (A : Vec → Vec) (x r : Vec) (tol : ℚ) (MAXIT : ℕ)
    (h : (cg.SolveInit solver A x r).rdotr ≤ cg.SolveTOL solver A x r tol) :
    (cg.Solve solver A x r tol MAXIT).1 = 0 ∧
    (cg.Solve solver A x r tol MAXIT).2 = cg.SolveInit solver A x r ∧
    cg.SolveTOL solver A x r tol
      = mymax (tol * tol * (cg.SolveInit solver A x r).rdotr) (tol * tol) ∧
    (cg.SolveInit solver A x r).rdotr
      = norm2sq solver.N (axpy solver.N (-1) (A x) 1 r) ∧
    (∀ (A2 : Vec → Vec) (TOL2 : ℚ) (fuel iter : ℕ) (s : CGState),
      s.rdotr ≤ TOL2 → cgLoop A2 TOL2 fuel iter s = (iter, s)) := by
  have hloop : ∀ (A2 : Vec → Vec) (TOL2 : ℚ) (fuel iter : ℕ) (s : CGState),
      s.rdotr ≤ TOL2 → cgLoop A2 TOL2 fuel iter s = (iter, s) := by
    intro A2 TOL2 fuel iter s hs
    cases fuel with
    | zero => rfl
    | succ fuel => simp [cgLoop, hs]
  refine ⟨?_, ?_, rfl, rfl, hloop⟩
  · unfold cg.Solve
    rw [hloop _ _ _ _ _ h]
  · unfold cg.Solve
    rw [hloop _ _ _ _ _ h]

/-- Witness for C3 at a concrete input: N = 1, identity operator, zero
initial guess, residual 1 at index 0, tolerance 2, MAXIT = 7; the initial
rdotr = 1 is below TOL = 4, and Solve returns 0 iterations. -/
theorem solve_zero_iterations_on_converged_input_witness :
    (cg.Solve ⟨1, 0, fun _ => 0, fun _ => 0⟩ (fun v => v) (fun _ => 0)
      (fun i => if i = 0 then 1 else 0) 2 7).1 = 0 :=
  (solve_zero_iterations_on_converged_input ⟨1, 0, fun _ => 0, fun _ => 0⟩
    (fun v => v) (fun _ => 0) (fun i => if i = 0 then 1 else 0) 2 7
    (by
      simp only [cg.SolveInit, cg.SolveTOL, mymax, axpy, norm2sq, innerProd,
        Finset.sum_range_succ, Finset.sum_range_zero]
      norm_num)).1

/-! ## Lemmas about the local operator heap semantics -/

lemma Heap.write_self (h : Heap) (a : ℕ) : Heap.write h a (h a) = h := by
  funext b
  unfold Heap.write
  split
  · subst b; rfl
  · rfl

/-- One unconditional kernel dispatch writing the member buffer at
address a, reading the input buffer at address aQL. -/
def opStep (a : ℕ) (count : ℕ) (lst : List ℕ) (elemOp : Vec → ℕ → ℚ)
    (aQL : ℕ) (h : Heap) : Heap :=
  Heap.write h a (localOperatorKernel count lst elemOp (h aQL) (h a))

lemma localOperatorKernel_zero (lst : List ℕ) (elemOp : Vec → ℕ → ℚ)
    (q Aq : Vec) : localOperatorKernel 0 lst elemOp q Aq = Aq := by
  funext e
  simp [localOperatorKernel]

lemma opStep_zero (a : ℕ) (lst : List ℕ) (elemOp : Vec → ℕ → ℚ)
    (aQL : ℕ) (h : Heap) : opStep a 0 lst elemOp aQL h = h := by
  unfold opStep
  rw [localOperatorKernel_zero, Heap.write_self]

lemma opStep_other (a : ℕ) (count : ℕ) (lst : List ℕ)
    (elemOp : Vec → ℕ → ℚ) (aQL : ℕ) (h : Heap) {b : ℕ} (hb : b ≠ a) :
    opStep a count lst elemOp aQL h b = h b := by
  simp [opStep, Heap.write, hb]

lemma opStep_value (a : ℕ) (count : ℕ) (lst : List ℕ)
    (elemOp : Vec → ℕ → ℚ) (aQL : ℕ) (h : Heap) (e : ℕ) :
    opStep a count lst elemOp aQL h a e
      = if e ∈ lst.take count then elemOp (h aQL) e else h a e := by
  simp [opStep, Heap.write, localOperatorKernel]

/-- The heap produced by LocalOperator is the three dispatches applied in
order, with the guards absorbed (a zero-count dispatch is the identity on
the heap). -/
lemma localOperator_heap (hb : hipBone_t) (elemOp : Vec → ℕ → ℚ)
    (aQL aAq : ℕ) (h0 : Heap) :
    (hb.LocalOperator elemOp aQL aAq h0).1
      = opStep hb.aAqL ((hb.mesh.NlocalGatherElements + 1) / 2)
          (hb.mesh.localGatherElementList.drop
            (hb.mesh.NlocalGatherElements / 2)) elemOp aQL
          (opStep hb.aAqL hb.mesh.NglobalGatherElements
            hb.mesh.globalGatherElementList elemOp aQL
            (opStep hb.aAqL (hb.mesh.NlocalGatherElements / 2)
              hb.mesh.localGatherElementList elemOp aQL h0)) := by
  simp only [hipBone_t.LocalOperator, opStep]
  split_ifs with h1 h2 h3 <;>
    (try simp_all only [not_ne_iff]) <;>
    simp [localOperatorKernel_zero, Heap.write_self]

/-- The guards of coveredElements are redundant for the list value: a
skipped dispatch has element count zero and hence an empty take. -/
lemma coveredElements_eq (m : mesh_t) :
    coveredElements m
      = m.localGatherElementList.take (m.NlocalGatherElements / 2)
        ++ m.globalGatherElementList.take m.NglobalGatherElements
        ++ (m.localGatherElementList.drop (m.NlocalGatherElements / 2)).take
            ((m.NlocalGatherElements + 1) / 2) := by
  unfold coveredElements
  split_ifs with h1 h2 h3 <;>
    (try simp_all only [not_ne_iff]) <;>
    simp

/-- The value of the member buffer o_AqL after LocalOperator, when the
input buffer is distinct from it: each covered element holds the
per-element operator applied to the (unchanged) input, and every other
element keeps its old value. -/
lemma localOperator_member_value (hb : hipBone_t) (elemOp : Vec → ℕ → ℚ)
    (aQL aAq : ℕ) (h0 : Heap) (hne : aQL ≠ hb.aAqL) (e : ℕ) :
    (hb.LocalOperator elemOp aQL aAq h0).1 hb.aAqL e
      = if e ∈ coveredElements hb.mesh then elemOp (h0 aQL) e
        else h0 hb.aAqL e := by
  rw [localOperator_heap, coveredElements_eq]
  have hq1 : opStep hb.aAqL (hb.mesh.NlocalGatherElements / 2)
      hb.mesh.localGatherElementList elemOp aQL h0 aQL = h0 aQL :=
    opStep_other _ _ _ _ _ _ hne
  have hq2 : opStep hb.aAqL hb.mesh.NglobalGatherElements
      hb.mesh.globalGatherElementList elemOp aQL
      (opStep hb.aAqL (hb.mesh.NlocalGatherElements / 2)
        hb.mesh.localGatherElementList elemOp aQL h0) aQL = h0 aQL := by
    rw [opStep_other _ _ _ _ _ _ hne, hq1]
  rw [opStep_value, hq2, opStep_value, hq1, opStep_value]
  by_cases e1 : e ∈ hb.mesh.localGatherElementList.take
      (hb.mesh.NlocalGatherElements / 2) <;>
    by_cases e2 : e ∈ hb.mesh.globalGatherElementList.take
        hb.mesh.NglobalGatherElements <;>
    by_cases e3 : e ∈ (hb.mesh.localGatherElementList.drop
        (hb.mesh.NlocalGatherElements / 2)).take
        ((hb.mesh.NlocalGatherElements + 1) / 2) <;>
    simp [e1, e2, e3]

/-- Elements outside the covered list keep their old value even when the
input and output buffers alias. -/
lemma localOperator_member_frame (hb : hipBone_t) (elemOp : Vec → ℕ → ℚ)
    (aQL aAq : ℕ) (h0 : Heap) (e : ℕ)
    (he : e ∉ coveredElements hb.mesh) :
    (hb.LocalOperator elemOp aQL aAq h0).1 hb.aAqL e = h0 hb.aAqL e := by
  rw [localOperator_heap]
  rw [coveredElements_eq] at he
  simp only [List.mem_append, not_or] at he
  obtain ⟨⟨he1, he2⟩, he3⟩ := he
  rw [opStep_value, if_neg he3, opStep_value, if_neg he2, opStep_value,
    if_neg he1]

/-- Addresses other than the member buffer are untouched. -/
lemma localOperator_other_addr (hb : hipBone_t) (elemOp : Vec → ℕ → ℚ)
    (aQL aAq : ℕ) (h0 : Heap) (a : ℕ) (ha : a ≠ hb.aAqL) :
    (hb.LocalOperator elemOp aQL aAq h0).1 a = h0 a := by
  rw [localOperator_heap, opStep_other _ _ _ _ _ _ ha,
    opStep_other _ _ _ _ _ _ ha, opStep_other _ _ _ _ _ _ ha]

/-- The second local half plus the first local half is the whole local
list, and with the length hypotheses the covered list is take/G/drop. -/
lemma coveredElements_split (m : mesh_t)
    (hlenL : m.localGatherElementList.length = m.NlocalGatherElements) :
    coveredElements m
      = m.localGatherElementList.take (m.NlocalGatherElements / 2)
        ++ m.globalGatherElementList.take m.NglobalGatherElements
        ++ m.localGatherElementList.drop (m.NlocalGatherElements / 2) := by
  rw [coveredElements_eq]
  congr 1
  apply List.take_of_length_le
  rw [List.length_drop, hlenL]
  omega

/-!
## C1: where the operator image lands
-/

/-- Concrete mesh for the C1 counterexample: one element, entirely in the
local-only partition. -/
def meshC1 : mesh_t := ⟨1, 1, 0, [0], []⟩

/-- Concrete hipBone instance for C1: the member buffer o_AqL lives at
address 0. -/
def hbC1 : hipBone_t := ⟨meshC1, 0⟩

/-- Concrete per-element operator for C1. -/
def elemOpC1 : Vec → ℕ → ℚ := fun q e => q e + 1

/-- All-zero heap. -/
def heapC1 : Heap := fun _ _ => 0

/-- C1 counterexample: with a valid one-element partition, calling
LocalOperator with input buffer at address 2 and OUTPUT ARGUMENT at
address 1 (distinct from the member buffer at address 0) leaves the
output argument unchanged (still 0 at element 0) even though the
operator image there is 1 - the image lands in the member buffer o_AqL
instead.  So LocalOperator does not write the operator image into the
output-vector argument it was given. -/
theorem localOperator_output_arg_counterexample :
    (meshC1.localGatherElementList
      ++ meshC1.globalGatherElementList).Perm (List.range meshC1.Nelements)
    ∧ (hbC1.LocalOperator elemOpC1 2 1 heapC1).1 1 0 = 0
    ∧ elemOpC1 (heapC1 2) 0 = 1
    ∧ (hbC1.LocalOperator elemOpC1 2 1 heapC1).1 hbC1.aAqL 0 = 1 := by
  refine ⟨by decide, ?_, by norm_num [elemOpC1, heapC1], ?_⟩
  · rw [localOperator_other_addr hbC1 elemOpC1 2 1 heapC1 1 (by decide)]
    rfl
  · rw [localOperator_member_value hbC1 elemOpC1 2 1 heapC1 (by decide) 0]
    norm_num [meshC1, hbC1, coveredElements, elemOpC1, heapC1]

/-- C1 (amended): LocalOperator writes the operator image into the
member buffer o_AqL, not into its output argument; given the mesh
partition invariant (the local and global element lists have the stated
lengths and together enumerate every element exactly once) and a
non-aliased input buffer, after the call the member buffer holds the
element-wise operator applied to q at every element of the mesh.  In the
intended call the argument passed for o_Aq is o_AqL itself, in which
case the argument does receive the image. -/
theorem localOperator_writes_member_AqL (hb : hipBone_t)
    (elemOp : Vec → ℕ → ℚ) (aQL aAq : ℕ) (h0 : Heap)
    (hlenL : hb.mesh.localGatherElementList.length
      = hb.mesh.NlocalGatherElements)
    (hlenG : hb.mesh.globalGatherElementList.length
      = hb.mesh.NglobalGatherElements)
    (hpart : (hb.mesh.localGatherElementList
      ++ hb.mesh.globalGatherElementList).Perm
        (List.range hb.mesh.Nelements))
    (hne : aQL ≠ hb.aAqL) :
    ∀ e < hb.mesh.Nelements,
      (hb.LocalOperator elemOp aQL aAq h0).1 hb.aAqL e
        = elemOp (h0 aQL) e := by
  intro e he
  rw [localOperator_member_value hb elemOp aQL aAq h0 hne e]
  have hmem : e ∈ coveredElements hb.mesh := by
    rw [coveredElements_split hb.mesh hlenL]
    have hLG : e ∈ hb.mesh.localGatherElementList
        ++ hb.mesh.globalGatherElementList :=
      hpart.symm.subset (List.mem_range.mpr he)
    rw [List.mem_append] at hLG
    simp only [List.mem_append]
    rcases hLG with hL | hG
    · rw [← List.take_append_drop (hb.mesh.NlocalGatherElements / 2)
        hb.mesh.localGatherElementList, List.mem_append] at hL
      rcases hL with h1 | h2
      · exact Or.inl (Or.inl h1)
      · exact Or.inr h2
    · refine Or.inl (Or.inr ?_)
      rw [← hlenG, List.take_length]
      exact hG
  rw [if_pos hmem]

/-- Witness for the amended C1 at the concrete one-element instance:
after the call the member buffer holds the image at element 0. -/
theorem localOperator_writes_member_AqL_witness :
    (hbC1.LocalOperator elemOpC1 2 1 heapC1).1 hbC1.aAqL 0
      = elemOpC1 (heapC1 2) 0 :=
  localOperator_writes_member_AqL hbC1 elemOpC1 2 1 heapC1
    (by decide) (by decide) (by decide) (by decide) 0 (by decide)

/-!
## C4: the two local halves and the global list cover all elements
-/

/-- C4: the first-half dispatch (NlocalGatherElements/2 elements at
offset 0), the second-half dispatch ((NlocalGatherElements+1)/2 elements
at offset NlocalGatherElements/2, which equals the remainder
count - count/2) and the halo-dependent dispatch together cover every
element of the mesh exactly once - the covered list is a permutation of
the full element range and has no duplicates - for every local element
count including 0, 1, and arbitrary odd/even values. -/
theorem localOperator_partition_cover (m : mesh_t)
    (hlenL : m.localGatherElementList.length = m.NlocalGatherElements)
    (hlenG : m.globalGatherElementList.length = m.NglobalGatherElements)
    (hpart : (m.localGatherElementList ++ m.globalGatherElementList).Perm
      (List.range m.Nelements)) :
    (coveredElements m).Perm (List.range m.Nelements) ∧
    (coveredElements m).Nodup ∧
    (m.NlocalGatherElements + 1) / 2
      = m.NlocalGatherElements - m.NlocalGatherElements / 2 := by
  have hcov : (coveredElements m).Perm (List.range m.Nelements) := by
    rw [coveredElements_split m hlenL, ← hlenG, List.take_length]
    have h1 : (m.localGatherElementList.take (m.NlocalGatherElements / 2)
        ++ m.globalGatherElementList
        ++ m.localGatherElementList.drop (m.NlocalGatherElements / 2)).Perm
        (m.localGatherElementList.take (m.NlocalGatherElements / 2)
          ++ m.localGatherElementList.drop (m.NlocalGatherElements / 2)
          ++ m.globalGatherElementList) := by
      rw [List.append_assoc, List.append_assoc]
      exact List.Perm.append_left _ (List.perm_append_comm)
    rw [List.take_append_drop] at h1
    exact h1.trans hpart
  exact ⟨hcov, hcov.symm.nodup (List.nodup_range _), by omega⟩

/-- Witness for C4 at a concrete odd-count mesh: 3 local elements
[0, 2, 4] and 2 global elements [1, 3] covering range 5. -/
theorem localOperator_partition_cover_witness :
    (coveredElements ⟨5, 3, 2, [0, 2, 4], [1, 3]⟩).Perm (List.range 5) :=
  (localOperator_partition_cover ⟨5, 3, 2, [0, 2, 4], [1, 3]⟩
    (by decide) (by decide) (by decide)).1

/-!
## C7: dispatches are issued only for nonzero element counts
-/

/-- C7: every kernel launch LocalOperator issues has a nonzero element
count (each dispatch is guarded by its count); buffers other than the
member output buffer are untouched; elements outside the dispatched
lists keep their old values; and for a fully empty partition no launch
at all is issued and the heap is unchanged. -/
theorem localOperator_zero_count_dispatch (hb : hipBone_t)
    (elemOp : Vec → ℕ → ℚ) (aQL aAq : ℕ) (h0 : Heap) :
    (∀ lau ∈ (hb.LocalOperator elemOp aQL aAq h0).2, 0 < lau.count) ∧
    (∀ a, a ≠ hb.aAqL →
      (hb.LocalOperator elemOp aQL aAq h0).1 a = h0 a) ∧
    (∀ e, e ∉ coveredElements hb.mesh →
      (hb.LocalOperator elemOp aQL aAq h0).1 hb.aAqL e = h0 hb.aAqL e) ∧
    (hb.mesh.NlocalGatherElements = 0 → hb.mesh.NglobalGatherElements = 0 →
      (hb.LocalOperator elemOp aQL aAq h0).2 = []
        ∧ (hb.LocalOperator elemOp aQL aAq h0).1 = h0) := by
  refine ⟨?_, fun a ha => localOperator_other_addr hb elemOp aQL aAq h0 a ha,
    fun e he => localOperator_member_frame hb elemOp aQL aAq h0 e he, ?_⟩
  · intro lau hlau
    have h2 : (hb.LocalOperator elemOp aQL aAq h0).2
        = (if hb.mesh.NlocalGatherElements / 2 ≠ 0 then
            [⟨hb.mesh.NlocalGatherElements / 2,
              hb.mesh.localGatherElementList⟩] else [])
          ++ (if hb.mesh.NglobalGatherElements ≠ 0 then
            [⟨hb.mesh.NglobalGatherElements,
              hb.mesh.globalGatherElementList⟩] else [])
          ++ (if (hb.mesh.NlocalGatherElements + 1) / 2 ≠ 0 then
            [⟨(hb.mesh.NlocalGatherElements + 1) / 2,
              hb.mesh.localGatherElementList.drop
                (hb.mesh.NlocalGatherElements / 2)⟩] else []) := rfl
    rw [h2] at hlau
    simp only [List.mem_append] at hlau
    rcases hlau with (hl | hl) | hl <;>
      (revert hl; split <;> intro hl <;> simp_all <;> omega)
  · intro hL hG
    constructor
    · have h2 : (hb.LocalOperator elemOp aQL aAq h0).2
          = (if hb.mesh.NlocalGatherElements / 2 ≠ 0 then
              [⟨hb.mesh.NlocalGatherElements / 2,
                hb.mesh.localGatherElementList⟩] else [])
            ++ (if hb.mesh.NglobalGatherElements ≠ 0 then
              [⟨hb.mesh.NglobalGatherElements,
                hb.mesh.globalGatherElementList⟩] else [])
            ++ (if (hb.mesh.NlocalGatherElements + 1) / 2 ≠ 0 then
              [⟨(hb.mesh.NlocalGatherElements + 1) / 2,
                hb.mesh.localGatherElementList.drop
                  (hb.mesh.NlocalGatherElements / 2)⟩] else []) := rfl
      rw [h2, hL, hG]
      norm_num
    · rw [localOperator_heap, hL, hG]
      norm_num
      rw [opStep_zero, opStep_zero, opStep_zero]

/-- Witness for C7 at a concrete mesh with one local and one global
element: a buffer at the untouched address 5 keeps its value and an
element outside the covered lists keeps its value. -/
theorem localOperator_zero_count_dispatch_witness :
    ((⟨⟨2, 1, 1, [0], [1]⟩, 0⟩ : hipBone_t).LocalOperator
        (fun q e => q e) 3 0 (fun _ _ => 0)).1 5 0 = 0 ∧
    ((⟨⟨2, 1, 1, [0], [1]⟩, 0⟩ : hipBone_t).LocalOperator
        (fun q e => q e) 3 0 (fun _ _ => 0)).1 0 7 = 0 := by
  constructor
  · have := (localOperator_zero_count_dispatch ⟨⟨2, 1, 1, [0], [1]⟩, 0⟩
      (fun q e => q e) 3 0 (fun _ _ => 0)).2.1 5 (by decide)
    exact congrFun this 0
  · exact (localOperator_zero_count_dispatch ⟨⟨2, 1, 1, [0], [1]⟩, 0⟩
      (fun q e => q e) 3 0 (fun _ _ => 0)).2.2.1 7 (by decide)

/-!
## C2: what the wait before the reduction actually covers
-/

/-- A valid schedule in which the solution-update axpy (device op 3,
enqueued at instruction 4, after the tag) completes at time 100, long
after the all-reduce (instruction 6) has executed at time 6. -/
def schedC2 : Schedule := ⟨fun k => k, fun j => if j = 3 then 100 else j⟩

/-- C2 counterexample: the stream tag is recorded before the solution
update x <- alpha*p + x is issued, so waitFor(tag) does not cover it;
there is a valid schedule (device queue in order, wait respected) in
which the all-reduce executes while the solution update is still
outstanding.  The claim that the reduction is never entered while the
solution update is outstanding is false; the source's own comment says
the all-reduce is computed while the axpy is running. -/
theorem updateCG_reduction_overlaps_axpy_counterexample :
    ValidSchedule updateCGHostProgram schedC2 ∧
    updateCGHostProgram.getD 4 HostStep.tagStream
      = HostStep.enqueue DevOp.axpySolution ∧
    enqueuedBefore updateCGHostProgram 4 = 3 ∧
    tagCutoff updateCGHostProgram = 3 ∧
    updateCGHostProgram.getD 6 HostStep.tagStream = HostStep.allReduce ∧
    schedC2.hostTime 6 < schedC2.devComplete 3 := by
  decide

/-- C2 (amended): the thread does block, before entering the reduction,
until every device operation issued before the stream tag - the
accumulator zero-fill, the fused residual-update kernel, and the
asynchronous accumulator transfer - has completed: in every valid
schedule those three device operations complete strictly before the
all-reduce instruction executes.  The solution update, issued after the
tag, is not covered by the wait and may still be outstanding (see the
counterexample); it is deliberately overlapped with the reduction. -/
theorem updateCG_wait_covers_transfer (S : Schedule)
    (h : ValidSchedule updateCGHostProgram S) :
    tagCutoff updateCGHostProgram = 3 ∧
    updateCGHostProgram.getD 2 HostStep.tagStream
      = HostStep.enqueue DevOp.copyAccum ∧
    updateCGHostProgram.getD 6 HostStep.tagStream = HostStep.allReduce ∧
    ∀ j < tagCutoff updateCGHostProgram,
      S.devComplete j < S.hostTime 6 := by
  obtain ⟨hhost, _hdev, _henq, hwait⟩ := h
  refine ⟨by decide, by decide, by decide, ?_⟩
  intro j hj
  have h5 : S.devComplete j ≤ S.hostTime 5 :=
    hwait 5 (by decide) (by decide) j hj
  have h56 : S.hostTime 5 < S.hostTime 6 :=
    hhost 6 (by decide) 5 (by decide)
  exact lt_of_le_of_lt h5 h56

/-- An entirely sequential valid schedule: each device op completes
right after its enqueue instruction executes. -/
def schedC2ok : Schedule := ⟨fun k => k, fun j => if j = 3 then 4 else j⟩

/-- Witness for the amended C2: in the sequential valid schedule the
accumulator transfer (device op 2) completes before the all-reduce
executes. -/
theorem updateCG_wait_covers_transfer_witness :
    schedC2ok.devComplete 2 < schedC2ok.hostTime 6 :=
  (updateCG_wait_covers_transfer schedC2ok (by decide)).2.2.2 2 (by decide)

/-! ## A field-level description of one loop iteration -/

/-- The fields of the state after one loop body, in terms of the current
state: p and alpha as computed by the body, x updated by the solution
axpy, r updated by the fused kernel, and rdotr the norm square of the
updated r. -/
lemma cgIter_spec (A : Vec → Vec) (iter : ℕ) (s : CGState) :
    ∃ p alpha,
      p = axpy s.solver.N 1 s.r
        (if iter = 0 then 0 else s.rdotr / s.rdotr1) s.solver.o_p ∧
      alpha = s.rdotr / innerProd s.solver.N p (A p) ∧
      (cgIter A iter s).solver.N = s.solver.N ∧
      (cgIter A iter s).solver.Nhalo = s.solver.Nhalo ∧
      (cgIter A iter s).solver.o_p = p ∧
      (cgIter A iter s).solver.o_Ap = A p ∧
      (cgIter A iter s).x = axpy s.solver.N alpha p 1 s.x ∧
      (cgIter A iter s).r = (fun i => if i < s.solver.N then
        s.r i - alpha * (A p) i else s.r i) ∧
      (cgIter A iter s).rdotr = norm2sq s.solver.N ((cgIter A iter s).r) ∧
      (cgIter A iter s).rdotr1 = s.rdotr ∧
      (cgIter A iter s).rdotr2 = s.rdotr1 :=
  ⟨_, _, rfl, rfl, rfl, rfl, rfl, rfl, rfl, rfl, rfl, rfl, rfl⟩

/-!
## C9: the solver's own vector updates never touch the halo
-/

lemma cgIter_halo (A : Vec → Vec) (iter : ℕ) (s : CGState) (i : ℕ)
    (hi : s.solver.N ≤ i) :
    (cgIter A iter s).x i = s.x i ∧ (cgIter A iter s).r i = s.r i ∧
    (cgIter A iter s).solver.o_p i = s.solver.o_p i ∧
    (cgIter A iter s).solver.N = s.solver.N := by
  obtain ⟨p, alpha, hp, _, hN, _, hop, _, hx, hr, _, _, _⟩ :=
    cgIter_spec A iter s
  refine ⟨?_, ?_, ?_, hN⟩
  · rw [hx, axpy_outside _ _ _ _ hi]
  · rw [hr]
    simp [Nat.not_lt.mpr hi]
  · rw [hop, hp, axpy_outside _ _ _ _ hi]

lemma cgLoop_halo (A : Vec → Vec) (TOL : ℚ) :
    ∀ (fuel iter : ℕ) (s : CGState) (i : ℕ), s.solver.N ≤ i →
    ((cgLoop A TOL fuel iter s).2.x i = s.x i ∧
     (cgLoop A TOL fuel iter s).2.r i = s.r i ∧
     (cgLoop A TOL fuel iter s).2.solver.o_p i = s.solver.o_p i) := by
  intro fuel
  induction fuel with
  | zero => exact fun iter s i _ => ⟨rfl, rfl, rfl⟩
  | succ fuel ih =>
    intro iter s i hi
    simp only [cgLoop]
    split
    · exact ⟨rfl, rfl, rfl⟩
    · have hstep := cgIter_halo A iter s i hi
      have hrec := ih (iter + 1) (cgIter A iter s) i
        (by rw [hstep.2.2.2]; exact hi)
      exact ⟨hrec.1.trans hstep.1, hrec.2.1.trans hstep.2.1,
        hrec.2.2.trans hstep.2.2.1⟩

/-- C9: every vector operation Solve and UpdateCG issue themselves (the
initial residual subtraction, p <- r + beta*p, the fused residual
update, and x <- alpha*p + x) acts only on the first N entries: for
every index i >= N, the x, r, and p buffers after Solve hold exactly
their pre-call values, and UpdateCG likewise leaves x and r unchanged at
i (the o_Ap member is written only by the external operator, never by a
solver-issued vector update, as is visible in the definitions). -/
theorem solver_updates_preserve_halo (solver : cg) (A : Vec → Vec)
    (x r : Vec) (tol : ℚ) (MAXIT : ℕ) (i : ℕ) (hi : solver.N ≤ i) :
    ((cg.Solve solver A x r tol MAXIT).2.x i = x i ∧
     (cg.Solve solver A x r tol MAXIT).2.r i = r i ∧
     (cg.Solve solver A x r tol MAXIT).2.solver.o_p i = solver.o_p i) ∧
    (∀ (alpha : ℚ) (x2 r2 : Vec),
      (solver.UpdateCG alpha x2 r2).2.1 i = x2 i ∧
      (solver.UpdateCG alpha x2 r2).2.2 i = r2 i) := by
  constructor
  · have h := cgLoop_halo A (cg.SolveTOL solver A x r tol) MAXIT 0
      (cg.SolveInit solver A x r) i hi
    exact ⟨h.1, h.2.1.trans (axpy_outside _ _ _ _ hi), h.2.2⟩
  · intro alpha x2 r2
    refine ⟨axpy_outside _ _ _ _ hi, ?_⟩
    show (if i < solver.N then r2 i - alpha * solver.o_Ap i else r2 i) = r2 i
    rw [if_neg (Nat.not_lt.mpr hi)]

/-- Witness for C9: with N = 1, Nhalo = 1, the halo entry at index 1 of
x and r is unchanged by a two-iteration Solve. -/
theorem solver_updates_preserve_halo_witness :
    (cg.Solve ⟨1, 1, fun _ => 0, fun _ => 0⟩ (fun v => v) (fun _ => 7)
      (fun _ => 5) 0 2).2.x 1 = 7 ∧
    (cg.Solve ⟨1, 1, fun _ => 0, fun _ => 0⟩ (fun v => v) (fun _ => 7)
      (fun _ => 5) 0 2).2.r 1 = 5 :=
  ⟨(solver_updates_preserve_halo ⟨1, 1, fun _ => 0, fun _ => 0⟩
      (fun v => v) (fun _ => 7) (fun _ => 5) 0 2 1 (by decide)).1.1,
   (solver_updates_preserve_halo ⟨1, 1, fun _ => 0, fun _ => 0⟩
      (fun v => v) (fun _ => 7) (fun _ => 5) 0 2 1 (by decide)).1.2.1⟩

/-!
## C6: one-iteration convergence for the identity operator
-/

/-- C6: with the operator equal to the identity, x initialized to the
zero vector and r to a right-hand side r0 whose residual norm square
exceeds the stopping threshold, Solve performs exactly 1 iteration,
returns 1, and leaves x equal to r0 on the unknowns (the first N
entries). -/
theorem solve_identity_one_iteration (solver : cg) (r0 : Vec) (tol : ℚ)
    (MAXIT : ℕ) (hM : 1 ≤ MAXIT)
    (hTOL : mymax (tol * tol * norm2sq solver.N r0) (tol * tol)
      < norm2sq solver.N r0) :
    (cg.Solve solver (fun v => v) (fun _ => 0) r0 tol MAXIT).1 = 1 ∧
    ∀ i < solver.N,
      (cg.Solve solver (fun v => v) (fun _ => 0) r0 tol MAXIT).2.x i
        = r0 i := by
  set A : Vec → Vec := fun v => v with hA
  set s0 := cg.SolveInit solver A (fun _ => 0) r0 with hs0
  -- the pre-loop state
  have hr2 : ∀ i, s0.r i = r0 i := by
    intro i
    show axpy solver.N (-1) (A (fun _ => 0)) 1 r0 i = r0 i
    unfold axpy
    split <;> simp [hA]
  have hrd0 : s0.rdotr = norm2sq solver.N r0 := by
    show norm2sq solver.N s0.r = norm2sq solver.N r0
    exact norm2sq_congr fun i _ => hr2 i
  have hx0 : ∀ i, s0.x i = 0 := fun i => rfl
  have hop0 : s0.solver.o_p = solver.o_p := rfl
  have hN0 : s0.solver.N = solver.N := rfl
  -- the threshold
  have hTOLval : cg.SolveTOL solver A (fun _ => 0) r0 tol
      = mymax (tol * tol * norm2sq solver.N r0) (tol * tol) := by
    unfold cg.SolveTOL
    rw [← hs0, hrd0]
  have hTOLnonneg : 0 ≤ cg.SolveTOL solver A (fun _ => 0) r0 tol := by
    rw [hTOLval]
    exact le_trans (mul_self_nonneg tol) (mymax_right_le _ _)
  have hnotbreak : ¬ (s0.rdotr ≤ cg.SolveTOL solver A (fun _ => 0) r0 tol) := by
    rw [hrd0, hTOLval]
    exact not_le.mpr hTOL
  have hrho : 0 < norm2sq solver.N r0 :=
    lt_of_le_of_lt (hTOLval ▸ hTOLnonneg) hTOL
  -- the single iteration
  obtain ⟨p, alpha, hp, halpha, hN1, _, _, _, hx1, hr1, hrd1, _, _⟩ :=
    cgIter_spec A 0 s0
  have hpwin : ∀ i < solver.N, p i = r0 i := by
    intro i hi
    rw [hp, hN0, axpy_window _ _ _ _ hi, hr2 i]
    simp
  have hApwin : ∀ i < solver.N, A p i = r0 i := by
    intro i hi
    rw [hA]
    exact hpwin i hi
  have hpAp : innerProd s0.solver.N p (A p) = norm2sq solver.N r0 := by
    rw [hN0]
    exact innerProd_congr hpwin hApwin
  have halpha1 : alpha = 1 := by
    rw [halpha, hpAp, hrd0]
    exact div_self hrho.ne'
  have hr1win : ∀ i < solver.N, (cgIter A 0 s0).r i = 0 := by
    intro i hi
    simp only [hr1]
    rw [hN0, if_pos hi, halpha1, hr2 i, hApwin i hi]
    ring
  have hrd1zero : (cgIter A 0 s0).rdotr = 0 := by
    rw [hrd1, hN0]
    exact innerProd_zero_left _ hr1win
  have hx1win : ∀ i < solver.N, (cgIter A 0 s0).x i = r0 i := by
    intro i hi
    simp only [hx1]
    rw [hN0, axpy_window _ _ _ _ hi, halpha1, hpwin i hi, hx0 i]
    ring
  -- unfolding the loop: exactly one admitted iteration
  obtain ⟨m, rfl⟩ : ∃ m, MAXIT = m + 1 := ⟨MAXIT - 1, by omega⟩
  have hrun : cg.Solve solver A (fun _ => 0) r0 tol (m + 1)
      = (1, cgIter A 0 s0) := by
    show cgLoop A (cg.SolveTOL solver A (fun _ => 0) r0 tol) (m + 1) 0 s0
      = (1, cgIter A 0 s0)
    rw [show m + 1 = Nat.succ m from rfl]
    unfold cgLoop
    rw [if_neg hnotbreak]
    cases m with
    | zero => rfl
    | succ m2 =>
      unfold cgLoop
      rw [if_pos (by rw [hrd1zero]; exact hTOLnonneg)]
  rw [hrun]
  exact ⟨rfl, hx1win⟩

/-- Witness for C6: N = 1, r0 = 2 at every index, tolerance 0, MAXIT 3:
Solve returns 1 and x ends at 2. -/
theorem solve_identity_one_iteration_witness :
    (cg.Solve ⟨1, 0, fun _ => 0, fun _ => 0⟩ (fun v => v) (fun _ => 0)
      (fun _ => 2) 0 3).1 = 1 ∧
    (cg.Solve ⟨1, 0, fun _ => 0, fun _ => 0⟩ (fun v => v) (fun _ => 0)
      (fun _ => 2) 0 3).2.x 0 = 2 := by
  have h := solve_identity_one_iteration ⟨1, 0, fun _ => 0, fun _ => 0⟩
    (fun _ => 2) 0 3 (by norm_num)
    (by
      simp only [mymax, norm2sq, innerProd, Finset.sum_range_succ,
        Finset.sum_range_zero]
      norm_num)
  exact ⟨h.1, h.2 0 (by norm_num)⟩

/-!
## C5: monotonicity along the CG recurrence

The spec asserts that the squared residual norm rdotr is essentially
non-increasing for an SPD operator.  That is false (see the
counterexample below); the quantity the recurrence does drive down
monotonically is the CG energy x.Ax - 2 b.x, equivalently the squared
A-norm of the error. -/

/-- The operator is symmetric for the inner product on the first n
entries. -/
def SymmetricOn (n : ℕ) (A : Vec → Vec) : Prop :=
  ∀ u v, innerProd n u (A v) = innerProd n (A u) v

/-- The operator acts linearly, entrywise on the first n entries. -/
def LinearOn (n : ℕ) (A : Vec → Vec) : Prop :=
  ∀ (a c : ℚ) (u v : Vec), ∀ i < n,
    A (fun j => a * u j + c * v j) i = a * A u i + c * A v i

/-- The first n output entries depend only on the first n input
entries. -/
def DependsOnFirst (n : ℕ) (A : Vec → Vec) : Prop :=
  ∀ u v, (∀ i < n, u i = v i) → ∀ i < n, A u i = A v i

/-- The operator is positive definite on the first n entries. -/
def PosDefOn (n : ℕ) (A : Vec → Vec) : Prop :=
  ∀ v, (∃ i, i < n ∧ v i ≠ 0) → 0 < innerProd n v (A v)

/-- The CG quadratic energy x.Ax - 2 b.x over the first n entries; up to
an additive constant this is the squared A-norm of the error of x. -/
def energy (n : ℕ) (A : Vec → Vec) (b x : Vec) : ℚ :=
  innerProd n x (A x) - 2 * innerProd n b x

lemma pAp_zero_cases {n : ℕ} {A : Vec → Vec} (hpos : PosDefOn n A)
    (p : Vec) : 0 < innerProd n p (A p) ∨ ∀ i < n, p i = 0 := by
  by_cases h : ∃ i, i < n ∧ p i ≠ 0
  · exact Or.inl (hpos p h)
  · push_neg at h
    exact Or.inr h

lemma energy_congr {n : ℕ} {A : Vec → Vec} (b : Vec)
    (hdep : DependsOnFirst n A) {x1 x2 : Vec} (h : ∀ i < n, x1 i = x2 i) :
    energy n A b x1 = energy n A b x2 := by
  unfold energy
  rw [innerProd_congr h (hdep x1 x2 h), innerProd_congr
    (fun i _ => rfl) h]

/-- The exact effect of the solution update x <- alpha*p + x on the
energy. -/
lemma energy_axpy (n : ℕ) (A : Vec → Vec) (b : Vec)
    (hsym : SymmetricOn n A) (hlin : LinearOn n A)
    (hdep : DependsOnFirst n A) (x p : Vec) (alpha : ℚ) :
    energy n A b (axpy n alpha p 1 x)
      = energy n A b x
        + 2 * alpha * (innerProd n p (A x) - innerProd n b p)
        + alpha ^ 2 * innerProd n p (A p) := by
  have hwin : ∀ i < n, axpy n alpha p 1 x i
      = (fun j => alpha * p j + 1 * x j) i := fun i hi =>
    axpy_window _ _ _ _ hi
  have hAwin : ∀ i < n, A (axpy n alpha p 1 x) i
      = (fun j => alpha * A p j + 1 * A x j) i := by
    intro i hi
    rw [hdep _ (fun j => alpha * p j + 1 * x j) hwin i hi]
    exact hlin alpha 1 p x i hi
  have hxA : innerProd n (axpy n alpha p 1 x) (A (axpy n alpha p 1 x))
      = alpha * (alpha * innerProd n p (A p) + 1 * innerProd n x (A p))
        + 1 * (alpha * innerProd n p (A x)
          + 1 * innerProd n x (A x)) := by
    rw [innerProd_congr hwin hAwin, innerProd_lin_right n alpha 1 _ (A p)
      (A x), innerProd_lin_left n alpha 1 p x (A p),
      innerProd_lin_left n alpha 1 p x (A x)]
  have hbx : innerProd n b (axpy n alpha p 1 x)
      = alpha * innerProd n b p + 1 * innerProd n b x := by
    rw [innerProd_congr (fun i _ => rfl) hwin,
      innerProd_lin_right n alpha 1 b p x]
  have hswap : innerProd n x (A p) = innerProd n p (A x) :=
    (hsym x p).trans (innerProd_comm n (A x) p)
  unfold energy
  rw [hxA, hbx, hswap]
  ring

/-- One loop body preserves the CG invariants (rdotr is the residual
norm square, the residual equation r = b - A x holds on the window, the
new residual is orthogonal to the new search direction) and does not
increase the energy. -/
lemma cgIter_energy_step (A : Vec → Vec) (b : Vec) (iter : ℕ)
    (s : CGState)
    (hsym : SymmetricOn s.solver.N A) (hlin : LinearOn s.solver.N A)
    (hdep : DependsOnFirst s.solver.N A) (hpos : PosDefOn s.solver.N A)
    (hrd : s.rdotr = norm2sq s.solver.N s.r)
    (hres : ∀ i < s.solver.N, s.r i = b i - A s.x i)
    (horth : iter = 0 ∨ innerProd s.solver.N s.solver.o_p s.r = 0) :
    (cgIter A iter s).solver.N = s.solver.N ∧
    (cgIter A iter s).rdotr
      = norm2sq s.solver.N ((cgIter A iter s).r) ∧
    (∀ i < s.solver.N,
      (cgIter A iter s).r i = b i - A ((cgIter A iter s).x) i) ∧
    innerProd s.solver.N ((cgIter A iter s).solver.o_p)
      ((cgIter A iter s).r) = 0 ∧
    energy s.solver.N A b ((cgIter A iter s).x)
      ≤ energy s.solver.N A b s.x := by
  obtain ⟨p, alpha, hp, halpha, hN1, _, hop1, _, hx1, hr1, hrd1, _, _⟩ :=
    cgIter_spec A iter s
  have hpr : innerProd s.solver.N p s.r = s.rdotr := by
    have hcg : innerProd s.solver.N p s.r
        = innerProd s.solver.N
          (fun j => 1 * s.r j
            + (if iter = 0 then 0 else s.rdotr / s.rdotr1)
              * s.solver.o_p j) s.r :=
      innerProd_congr (fun i hi => by rw [hp, axpy_window _ _ _ _ hi])
        (fun _ _ => rfl)
    rw [hcg, innerProd_lin_left]
    have hrr : innerProd s.solver.N s.r s.r = s.rdotr := hrd.symm
    rcases horth with h0 | ho
    · rw [h0]
      simp [hrr]
    · rw [ho, hrr]
      ring
  have hx1win : ∀ i < s.solver.N,
      (cgIter A iter s).x i = alpha * p i + 1 * s.x i := by
    intro i hi
    simp only [hx1]
    rw [axpy_window _ _ _ _ hi]
  have hAx1 : ∀ i < s.solver.N,
      A ((cgIter A iter s).x) i = alpha * A p i + 1 * A s.x i := by
    intro i hi
    rw [hdep _ (fun j => alpha * p j + 1 * s.x j) hx1win i hi]
    exact hlin alpha 1 p s.x i hi
  have hr1win : ∀ i < s.solver.N,
      (cgIter A iter s).r i = s.r i - alpha * A p i := by
    intro i hi
    simp only [hr1]
    rw [if_pos hi]
  have hres1 : ∀ i < s.solver.N,
      (cgIter A iter s).r i = b i - A ((cgIter A iter s).x) i := by
    intro i hi
    rw [hr1win i hi, hAx1 i hi, hres i hi]
    ring
  have horth1pre : innerProd s.solver.N p ((cgIter A iter s).r)
      = s.rdotr - alpha * innerProd s.solver.N p (A p) := by
    have hcg : innerProd s.solver.N p ((cgIter A iter s).r)
        = innerProd s.solver.N p
          (fun j => 1 * s.r j + (-alpha) * A p j) :=
      innerProd_congr (fun _ _ => rfl)
        (fun i hi => by rw [hr1win i hi]; ring)
    rw [hcg, innerProd_lin_right, hpr]
    ring
  have hpb : innerProd s.solver.N p (A s.x) - innerProd s.solver.N b p
      = - s.rdotr := by
    have hcg : innerProd s.solver.N p s.r
        = innerProd s.solver.N p (fun j => 1 * b j + (-1) * A s.x j) :=
      innerProd_congr (fun _ _ => rfl)
        (fun i hi => by rw [hres i hi]; ring)
    rw [innerProd_lin_right] at hcg
    have hbp : innerProd s.solver.N b p = innerProd s.solver.N p b :=
      innerProd_comm _ _ _
    rw [hpr] at hcg
    rw [hbp]
    linarith [hcg]
  have henergy : energy s.solver.N A b ((cgIter A iter s).x)
      = energy s.solver.N A b s.x
        + 2 * alpha * (- s.rdotr)
        + alpha ^ 2 * innerProd s.solver.N p (A p) := by
    have he : energy s.solver.N A b ((cgIter A iter s).x)
        = energy s.solver.N A b (axpy s.solver.N alpha p 1 s.x) := by
      rw [hx1]
    rw [he, energy_axpy _ _ _ hsym hlin hdep, hpb]
  rcases pAp_zero_cases hpos p with hposp | hzw
  · -- pAp > 0: alpha = rdotr/pAp, exact decrease rdotr^2/pAp
    refine ⟨hN1, hrd1, hres1, ?_, ?_⟩
    · rw [hop1, horth1pre, halpha,
        div_mul_cancel₀ _ (ne_of_gt hposp)]
      ring
    · rw [henergy, halpha]
      have hsq : 2 * (s.rdotr / innerProd s.solver.N p (A p)) * (- s.rdotr)
          + (s.rdotr / innerProd s.solver.N p (A p)) ^ 2
            * innerProd s.solver.N p (A p)
          = - (s.rdotr ^ 2 / innerProd s.solver.N p (A p)) := by
        field_simp
        ring
      rw [add_assoc, hsq]
      have hnn : 0 ≤ s.rdotr ^ 2 / innerProd s.solver.N p (A p) :=
        div_nonneg (sq_nonneg _) (le_of_lt hposp)
      linarith
  · -- p vanishes on the window: rdotr = 0, alpha = 0, nothing moves
    have hpAp0 : innerProd s.solver.N p (A p) = 0 :=
      innerProd_zero_left _ hzw
    have hrho0 : s.rdotr = 0 := by
      rw [← hpr]
      exact innerProd_zero_left _ hzw
    refine ⟨hN1, hrd1, hres1, ?_, ?_⟩
    · rw [hop1]
      exact innerProd_zero_left _ hzw
    · rw [henergy, hrho0, hpAp0]
      ring_nf
      exact le_refl _

/-- Unfolding a step train from the back. -/
lemma cgSteps_back (A : Vec → Vec) :
    ∀ (k i : ℕ) (s : CGState),
      cgSteps A i (k + 1) s = cgIter A (i + k) (cgSteps A i k s) := by
  intro k
  induction k with
  | zero => intro i s; rfl
  | succ k ih =>
    intro i s
    show cgSteps A (i + 1) (k + 1) (cgIter A i s)
      = cgIter A (i + (k + 1)) (cgSteps A (i + 1) k (cgIter A i s))
    rw [ih (i + 1) (cgIter A i s)]
    congr 1
    omega

/-- The CG invariants hold along the whole recurrence started from the
pre-loop state. -/
lemma cgSteps_inv (A : Vec → Vec) (b : Vec) (s0 : CGState)
    (hsym : SymmetricOn s0.solver.N A) (hlin : LinearOn s0.solver.N A)
    (hdep : DependsOnFirst s0.solver.N A) (hpos : PosDefOn s0.solver.N A)
    (hrd : s0.rdotr = norm2sq s0.solver.N s0.r)
    (hres : ∀ i < s0.solver.N, s0.r i = b i - A s0.x i) :
    ∀ k, (cgSteps A 0 k s0).solver.N = s0.solver.N ∧
      (cgSteps A 0 k s0).rdotr
        = norm2sq s0.solver.N ((cgSteps A 0 k s0).r) ∧
      (∀ i < s0.solver.N,
        (cgSteps A 0 k s0).r i = b i - A ((cgSteps A 0 k s0).x) i) ∧
      (k = 0 ∨ innerProd s0.solver.N ((cgSteps A 0 k s0).solver.o_p)
        ((cgSteps A 0 k s0).r) = 0) := by
  intro k
  induction k with
  | zero => exact ⟨rfl, hrd, hres, Or.inl rfl⟩
  | succ k ih =>
    obtain ⟨ihN, ihrd, ihres, ihorth⟩ := ih
    have hsym2 : SymmetricOn (cgSteps A 0 k s0).solver.N A := by
      rw [ihN]; exact hsym
    have hlin2 : LinearOn (cgSteps A 0 k s0).solver.N A := by
      rw [ihN]; exact hlin
    have hdep2 : DependsOnFirst (cgSteps A 0 k s0).solver.N A := by
      rw [ihN]; exact hdep
    have hpos2 : PosDefOn (cgSteps A 0 k s0).solver.N A := by
      rw [ihN]; exact hpos
    have hrd2 : (cgSteps A 0 k s0).rdotr
        = norm2sq (cgSteps A 0 k s0).solver.N ((cgSteps A 0 k s0).r) := by
      rw [ihN]; exact ihrd
    have hres2 : ∀ i < (cgSteps A 0 k s0).solver.N,
        (cgSteps A 0 k s0).r i = b i - A ((cgSteps A 0 k s0).x) i := by
      rw [ihN]; exact ihres
    have horth2 : 0 + k = 0 ∨ innerProd (cgSteps A 0 k s0).solver.N
        ((cgSteps A 0 k s0).solver.o_p) ((cgSteps A 0 k s0).r) = 0 := by
      rcases ihorth with h0 | ho
      · exact Or.inl (by omega)
      · right; rw [ihN]; exact ho
    have hstep := cgIter_energy_step A b (0 + k) (cgSteps A 0 k s0)
      hsym2 hlin2 hdep2 hpos2 hrd2 hres2 horth2
    rw [cgSteps_back]
    refine ⟨hstep.1.trans ihN, ?_, ?_, Or.inr ?_⟩
    · rw [hstep.2.1, ihN]
    · rw [← ihN]
      exact hstep.2.2.1
    · rw [← ihN]
      exact hstep.2.2.2.1

/-- C5 (amended): for an operator that is symmetric, linear, local to
the first N entries and positive definite there, each iteration of the
CG recurrence started from Solve's pre-loop state does not increase the
CG energy x.Ax - 2 r.x (equivalently, the squared A-norm of the error
is non-increasing).  The Euclidean residual square rdotr itself is NOT
non-increasing, even up to a small factor - see the counterexample. -/
theorem cg_energy_nonincreasing (solver : cg) (A : Vec → Vec)
    (x r : Vec) (k : ℕ)
    (hsym : SymmetricOn solver.N A) (hlin : LinearOn solver.N A)
    (hdep : DependsOnFirst solver.N A) (hpos : PosDefOn solver.N A) :
    energy solver.N A r
        ((cgSteps A 0 (k + 1) (cg.SolveInit solver A x r)).x)
      ≤ energy solver.N A r
        ((cgSteps A 0 k (cg.SolveInit solver A x r)).x) := by
  have hrd : (cg.SolveInit solver A x r).rdotr
      = norm2sq (cg.SolveInit solver A x r).solver.N
        ((cg.SolveInit solver A x r).r) := rfl
  have hres : ∀ i < (cg.SolveInit solver A x r).solver.N,
      (cg.SolveInit solver A x r).r i
        = r i - A ((cg.SolveInit solver A x r).x) i := by
    intro i hi
    have hi2 : i < solver.N := hi
    show axpy solver.N (-1) (A x) 1 r i = r i - A x i
    rw [axpy_window _ _ _ _ hi2]
    ring
  have hinv := cgSteps_inv A r (cg.SolveInit solver A x r)
    hsym hlin hdep hpos hrd hres k
  obtain ⟨ihN, ihrd, ihres, ihorth⟩ := hinv
  have hsym2 : SymmetricOn (cgSteps A 0 k
      (cg.SolveInit solver A x r)).solver.N A := by rw [ihN]; exact hsym
  have hlin2 : LinearOn (cgSteps A 0 k
      (cg.SolveInit solver A x r)).solver.N A := by rw [ihN]; exact hlin
  have hdep2 : DependsOnFirst (cgSteps A 0 k
      (cg.SolveInit solver A x r)).solver.N A := by rw [ihN]; exact hdep
  have hpos2 : PosDefOn (cgSteps A 0 k
      (cg.SolveInit solver A x r)).solver.N A := by rw [ihN]; exact hpos
  have hrd2 := ihN ▸ ihrd
  have hstep := cgIter_energy_step A r (0 + k)
    (cgSteps A 0 k (cg.SolveInit solver A x r)) hsym2 hlin2 hdep2 hpos2
    (by rw [ihN]; exact ihrd) (by rw [ihN]; exact ihres)
    (by
      rcases ihorth with h0 | ho
      · exact Or.inl (by omega)
      · right; rw [ihN]; exact ho)
  rw [cgSteps_back]
  have := hstep.2.2.2.2
  rw [ihN] at this
  exact this

/-- A diagonal operator: multiplies entry i by d i. -/
def diagOp (d : Vec) : Vec → Vec := fun v => fun i => d i * v i

lemma diagOp_symmetric (n : ℕ) (d : Vec) : SymmetricOn n (diagOp d) := by
  intro u v
  unfold diagOp innerProd
  exact Finset.sum_congr rfl fun i _ => by ring

lemma diagOp_linear (n : ℕ) (d : Vec) : LinearOn n (diagOp d) := by
  intro a c u v i _
  unfold diagOp
  ring

lemma diagOp_depends (n : ℕ) (d : Vec) : DependsOnFirst n (diagOp d) := by
  intro u v h i hi
  unfold diagOp
  rw [h i hi]

lemma diagOp_posdef (n : ℕ) (d : Vec) (hd : ∀ i < n, 0 < d i) :
    PosDefOn n (diagOp d) := by
  rintro v ⟨i, hi, hvi⟩
  unfold diagOp innerProd
  refine Finset.sum_pos' (fun j hj => ?_) ⟨i, Finset.mem_range.mpr hi, ?_⟩
  · have h1 : v j * (d j * v j) = d j * (v j * v j) := by ring
    rw [h1]
    exact mul_nonneg (le_of_lt (hd j (Finset.mem_range.mp hj)))
      (mul_self_nonneg _)
  · have h1 : v i * (d i * v i) = d i * (v i * v i) := by ring
    rw [h1]
    exact mul_pos (hd i hi) (mul_self_pos.mpr hvi)

/-- The SPD diagonal d = (1, 100) of the counterexample. -/
def dEx : Vec := fun i => if i = 0 then 1 else if i = 1 then 100 else 0

/-- The counterexample right-hand side r0 = (1, 1/10). -/
def rEx : Vec := fun i => if i = 0 then 1 else if i = 1 then 1/10 else 0

/-- C5 counterexample: for the SPD operator diag(1, 100) with
r0 = (1, 1/10), x0 = 0, the squared residual norm after one iteration of
Solve is 989901/40000, about 24.5 times the initial 101/100; in
particular rdotr(1) <= rdotr(0) * (1 + eps) fails even at eps = 1, so
the claimed near-monotonicity of rdotr is false for SPD operators. -/
theorem cg_rdotr_can_increase_counterexample :
    SymmetricOn 2 (diagOp dEx) ∧ PosDefOn 2 (diagOp dEx) ∧
    LinearOn 2 (diagOp dEx) ∧ DependsOnFirst 2 (diagOp dEx) ∧
    (cg.Solve (cg.construct 2 0) (diagOp dEx) (fun _ => 0)
      rEx 0 0).2.rdotr = 101 / 100 ∧
    (cg.Solve (cg.construct 2 0) (diagOp dEx) (fun _ => 0)
      rEx 0 1).2.rdotr = 989901 / 40000 ∧
    ¬ ((cg.Solve (cg.construct 2 0) (diagOp dEx) (fun _ => 0)
          rEx 0 1).2.rdotr
        ≤ (1 + 1) * (cg.Solve (cg.construct 2 0) (diagOp dEx) (fun _ => 0)
          rEx 0 0).2.rdotr) := by
  refine ⟨diagOp_symmetric 2 dEx, diagOp_posdef 2 dEx ?_,
    diagOp_linear 2 dEx, diagOp_depends 2 dEx, ?_, ?_, ?_⟩
  · intro i hi
    interval_cases i <;> norm_num [dEx]
  · simp only [cg.Solve, cg.SolveTOL, cg.SolveInit, cg.construct, cgLoop,
      cgIter, cg.UpdateCG, updateCG_r_atomic, axpy, norm2sq, innerProd,
      mymax, dEx, diagOp, rEx, Finset.sum_range_succ,
      Finset.sum_range_zero]
    norm_num
  · simp only [cg.Solve, cg.SolveTOL, cg.SolveInit, cg.construct, cgLoop,
      cgIter, cg.UpdateCG, updateCG_r_atomic, axpy, norm2sq, innerProd,
      mymax, dEx, diagOp, rEx, Finset.sum_range_succ,
      Finset.sum_range_zero]
    norm_num
  · simp only [cg.Solve, cg.SolveTOL, cg.SolveInit, cg.construct, cgLoop,
      cgIter, cg.UpdateCG, updateCG_r_atomic, axpy, norm2sq, innerProd,
      mymax, dEx, diagOp, rEx, Finset.sum_range_succ,
      Finset.sum_range_zero]
    norm_num

/-- Witness for the amended C5: the energy does not increase over the
first iteration for the identity-like SPD operator diag(1) with N = 1,
b = r = 3, x0 = 0. -/
theorem cg_energy_nonincreasing_witness :
    energy 1 (diagOp fun _ => 1) (fun _ => 3)
        ((cgSteps (diagOp fun _ => 1) 0 1
          (cg.SolveInit (cg.construct 1 0) (diagOp fun _ => 1)
            (fun _ => 0) (fun _ => 3))).x)
      ≤ energy 1 (diagOp fun _ => 1) (fun _ => 3)
        ((cgSteps (diagOp fun _ => 1) 0 0
          (cg.SolveInit (cg.construct 1 0) (diagOp fun _ => 1)
            (fun _ => 0) (fun _ => 3))).x) :=
  cg_energy_nonincreasing (cg.construct 1 0) (diagOp fun _ => 1)
    (fun _ => 0) (fun _ => 3) 0
    (diagOp_symmetric _ _) (diagOp_linear _ _) (diagOp_depends _ _)
    (diagOp_posdef _ _ fun _ _ => one_pos)

end HipBone
